import Mathlib

/-!
Verification development for the `chesspuzzles` repository.

JavaScript strings are embedded as `List Char` (named `JsStr`): every
string operation the source performs (`split`, `startsWith`, `includes`,
regex scans, concatenation) is translated to an executable Lean function
on character lists, so every definition can be evaluated on concrete
inputs.
-/

/-- A JavaScript string, embedded as a list of characters. -/
abbrev JsStr := List Char

/-- JavaScript `String.prototype.split(sep)` for a single-character
separator: `"".split(s) = [""]`, separators at the ends produce empty
fields, exactly as in JS. -/
def jsSplit (sep : Char) : JsStr → List JsStr
  | [] => [[]]
  | c :: cs =>
    if c = sep then [] :: jsSplit sep cs
    else
      match jsSplit sep cs with
      | t :: ts => (c :: t) :: ts
      | [] => [[c]]

/-- `jsSplit` never returns the empty list of fields. -/
theorem jsSplit_ne_nil (sep : Char) (l : JsStr) : jsSplit sep l ≠ [] := by
  induction l with
  | nil => simp [jsSplit]
  | cons c cs ih =>
    simp only [jsSplit]
    split
    · simp
    · cases h : jsSplit sep cs with
      | nil => exact absurd h ih
      | cons t ts => simp

/-- Splitting distributes over a separator placed between two strings. -/
theorem jsSplit_append_sep (sep : Char) (xs ys : JsStr) :
    jsSplit sep (xs ++ sep :: ys) = jsSplit sep xs ++ jsSplit sep ys := by
  induction xs with
  | nil => simp [jsSplit]
  | cons c cs ih =>
    by_cases hc : c = sep
    · simp [jsSplit, hc, ih]
    · simp only [List.cons_append, jsSplit, hc, if_false, List.append_eq]
      rw [ih]
      cases h : jsSplit sep cs with
      | nil => exact absurd h (jsSplit_ne_nil sep cs)
      | cons t ts => simp

/-! ## FEN normalization (`main.js`)

`BoardAnalyzer.loadPosition` (main.js:273-280) normalizes an incoming FEN:

```js
let normalizedFen = fen;
if (fen.split(' ').length < 6) {
    normalizedFen = `${fen} w - - 0 1`;
}
```

`BoardAnalyzer.loadFenList` (main.js:671) normalizes each non-blank line
with the identical expression:

```js
const normalizedFen = fen.split(' ').length < 6 ? `${fen} w - - 0 1` : fen;
```
-/

/-- The default FEN suffix `" w - - 0 1"` appended by normalization. -/
def fenDefaultSuffix : JsStr := ' ' :: ['w', ' ', '-', ' ', '-', ' ', '0', ' ', '1']

/-- FEN normalization as performed by `BoardAnalyzer.loadPosition`
(main.js:273-280). -/
def loadPositionNormalize (fen : JsStr) : JsStr :=
  if (jsSplit ' ' fen).length < 6 then fen ++ fenDefaultSuffix else fen

/-- FEN normalization as performed by `BoardAnalyzer.loadFenList`
(main.js:671); the expression is identical to the one in `loadPosition`. -/
def loadFenListNormalize (fen : JsStr) : JsStr :=
  if (jsSplit ' ' fen).length < 6 then fen ++ fenDefaultSuffix else fen

theorem loadFenListNormalize_eq (fen : JsStr) :
    loadFenListNormalize fen = loadPositionNormalize fen := rfl

/-- Splitting the appended default suffix contributes exactly the five
fields `w - - 0 1`. -/
theorem jsSplit_normalize (fen : JsStr) (h : (jsSplit ' ' fen).length < 6) :
    jsSplit ' ' (loadPositionNormalize fen)
      = jsSplit ' ' fen ++ [['w'], ['-'], ['-'], ['0'], ['1']] := by
  have : loadPositionNormalize fen
      = fen ++ ' ' :: ['w', ' ', '-', ' ', '-', ' ', '0', ' ', '1'] := by
    simp [loadPositionNormalize, h, fenDefaultSuffix]
  rw [this, jsSplit_append_sep]
  rfl

/-! ## Engine protocol parser and analysis coordinator (`engine.js`)

`StockfishEngine.parseEngineOutput` (engine.js:79-144) classifies one line
of engine output with JavaScript regular expressions:

```js
const depthMatch   = line.match(/depth (\d+)/);
const scoreMatch   = line.match(/score (cp|mate) (-?\d+)/);
const pvMatch      = line.match(/pv (.+)/);
const multiPvMatch = line.match(/multipv (\d+)/);
```

Each regex scan is embedded as a left-to-right scanner over the character
list: at each start position the literal part is compared and the numeric
payload parsed; on failure the scan resumes one character later, exactly
as the regex engine advances its start position.
-/

/-- Decimal value of a digit run (the effect of `parseInt` on a `\d+`
capture). -/
def natDigitsVal (ds : JsStr) : Nat :=
  ds.foldl (fun a c => a * 10 + (c.toNat - '0'.toNat)) 0

/-- First match of a regex `key(\d+)` (e.g. `/depth (\d+)/`,
`/multipv (\d+)/`), scanning start positions left to right. -/
def scanKeyNat (key : JsStr) : JsStr → Option Nat
  | [] => none
  | c :: cs =>
    let ds := ((c :: cs).drop key.length).takeWhile Char.isDigit
    if key.isPrefixOf (c :: cs) && !ds.isEmpty then some (natDigitsVal ds)
    else scanKeyNat key cs

/-- `-?\d+` anchored at the current position (the numeric capture of the
score regex). -/
def scanInt (l : JsStr) : Option Int :=
  match l with
  | '-' :: rest =>
    let ds := rest.takeWhile Char.isDigit
    if ds.isEmpty then none else some (-(natDigitsVal ds : Int))
  | _ =>
    let ds := l.takeWhile Char.isDigit
    if ds.isEmpty then none else some ((natDigitsVal ds : Int))

/-- The alternation captured by `/score (cp|mate) (-?\d+)/`. -/
inductive ScoreKind
  | cp
  | mate
deriving DecidableEq, Repr

/-- First match of `/score (cp|mate) (-?\d+)/`, scanning start positions
left to right. -/
def scanScore : JsStr → Option (ScoreKind × Int)
  | [] => none
  | c :: cs =>
    if ("score cp ".toList).isPrefixOf (c :: cs) then
      match scanInt ((c :: cs).drop 9) with
      | some v => some (ScoreKind.cp, v)
      | none => scanScore cs
    else if ("score mate ".toList).isPrefixOf (c :: cs) then
      match scanInt ((c :: cs).drop 11) with
      | some v => some (ScoreKind.mate, v)
      | none => scanScore cs
    else scanScore cs

/-- First match of `/pv (.+)/`: the capture runs to the end of the line
and must be non-empty.  (On a real engine line the first textual
occurrence of `pv ` sits inside `multipv K ...`; the non-move tokens this
lets into the capture are removed below by the UCI-shape filter, exactly
as in the source.) -/
def scanPv : JsStr → Option JsStr
  | [] => none
  | c :: cs =>
    if ("pv ".toList).isPrefixOf (c :: cs) && !((c :: cs).drop 3).isEmpty then
      some ((c :: cs).drop 3)
    else scanPv cs

/-- JavaScript `String.prototype.includes`. -/
def jsIncludes (needle : JsStr) : JsStr → Bool
  | [] => needle.isEmpty
  | c :: cs => needle.isPrefixOf (c :: cs) || jsIncludes needle cs

/-- Helper for `trim().split(/\s+/)`: accumulate the current token in
reverse. -/
def wsTokensAux : JsStr → JsStr → List JsStr
  | [], acc => if acc.isEmpty then [] else [acc.reverse]
  | c :: cs, acc =>
    if c.isWhitespace then
      if acc.isEmpty then wsTokensAux cs [] else acc.reverse :: wsTokensAux cs []
    else wsTokensAux cs (c :: acc)

/-- `str.trim().split(/\s+/)` restricted to its non-empty tokens (the
lone `""` JS produces for an all-whitespace input is dropped here; the
source drops it one step later with the UCI-shape filter). -/
def wsTokens (l : JsStr) : List JsStr := wsTokensAux l []

/-- The token shape `/^[a-h][1-8][a-h][1-8][qrbn]?$/` accepted as a UCI
move (engine.js:94-96). -/
def isUciMove : JsStr → Bool
  | [a, r1, b, r2] =>
    ('a' ≤ a && a ≤ 'h') && ('1' ≤ r1 && r1 ≤ '8') &&
    ('a' ≤ b && b ≤ 'h') && ('1' ≤ r2 && r2 ≤ '8')
  | [a, r1, b, r2, p] =>
    ('a' ≤ a && a ≤ 'h') && ('1' ≤ r1 && r1 ≤ '8') &&
    ('a' ≤ b && b ≤ 'h') && ('1' ≤ r2 && r2 ≤ '8') &&
    (p = 'q' || p = 'r' || p = 'b' || p = 'n')
  | _ => false

/-- One entry of `currentAnalysis.moves` (engine.js:125-130). -/
structure MoveInfo where
  move : JsStr
  score : Option Int
  mate : Option Int
  line : List JsStr
deriving DecidableEq, Repr

/-- The aggregate `this.currentAnalysis` (engine.js:11-16).  `moves` is a
JS array indexed by `multipv - 1`; holes (never-assigned slots below an
assigned one) are `none`. -/
structure Analysis where
  score : Option Int
  mate : Option Int
  depth : Nat
  moves : List (Option MoveInfo)
deriving DecidableEq, Repr

/-- The freshly reset aggregate (engine.js:11-16 and 164-169). -/
def emptyAnalysis : Analysis := ⟨none, none, 0, []⟩

/-- The delivered result: `{...currentAnalysis, moves: moves.filter(m => m !== undefined)}`
(engine.js:138-141). -/
structure AnalysisResult where
  score : Option Int
  mate : Option Int
  depth : Nat
  moves : List MoveInfo
deriving DecidableEq, Repr

/-- Flushing the aggregate filters out the still-empty rank slots. -/
def flushResult (a : Analysis) : AnalysisResult :=
  ⟨a.score, a.mate, a.depth, a.moves.filterMap id⟩

/-- JS `moves[i] = mi` for `i < moves.length`: overwrite; for
`i ≥ moves.length`: extend, padding the gap with holes. -/
def writePad : List (Option MoveInfo) → Nat → MoveInfo → List (Option MoveInfo)
  | [], 0, m => [some m]
  | [], Nat.succ i, m => none :: writePad [] i m
  | _ :: xs, 0, m => some m :: xs
  | x :: xs, Nat.succ i, m => x :: writePad xs i m

/-- `this.currentAnalysis.moves[multiPv - 1] = mi` (engine.js:124-130).
For `multiPv = 0` the JS index is `-1`, which stores a non-index property
on the array object: the array's items, its `length` and the later
`filter` are unaffected, so the slot list is unchanged. -/
def setMoveSlot (moves : List (Option MoveInfo)) (multiPv : Nat) (mi : MoveInfo) :
    List (Option MoveInfo) :=
  match multiPv with
  | 0 => moves
  | Nat.succ i => writePad moves i mi

/-- State of a `StockfishEngine` instance: `worker` records whether
`this.worker` is non-null; callbacks are identified by an opaque token. -/
structure EngineState where
  worker : Bool
  isAnalyzing : Bool
  analysisCallback : Option Nat
  currentAnalysis : Analysis
deriving DecidableEq, Repr

/-- Messages posted to the worker proxy (`{type: 'init'}`,
`{type: 'command', command}`, `{type: 'stop'}`). -/
inductive WorkerMsg
  | init
  | command (cmd : JsStr)
  | stop
deriving DecidableEq, Repr

/-- Observable effects of one coordinator step: a callback invocation
`this.analysisCallback(result)`, or a `this.worker.postMessage(msg)`. -/
inductive EngineOut
  | invoke (cb : Nat) (result : AnalysisResult)
  | post (msg : WorkerMsg)
deriving DecidableEq, Repr

/-- The `info ... depth` block of `parseEngineOutput` (engine.js:81-133):
it mutates only `this.currentAnalysis`. -/
def parseInfoLine (line : JsStr) (st : EngineState) : EngineState :=
  if (("info".toList).isPrefixOf line) && jsIncludes ("depth".toList) line then
    match scanKeyNat ("depth ".toList) line with
    | none => st
    | some depth =>
      let multiPv := (scanKeyNat ("multipv ".toList) line).getD 1
      match scanPv line with
      | none => st
      | some cap =>
        let uciTokens := (wsTokens cap).filter isUciMove
        if uciTokens.isEmpty then st
        else
          let primaryMove := uciTokens.headD []
          let score : Option Int :=
            match scanScore line with
            | some (ScoreKind.cp, v) => some v
            | _ => none
          let mate : Option Int :=
            match scanScore line with
            | some (ScoreKind.mate, v) => some v
            | _ => none
          let a := st.currentAnalysis
          let a1 := if multiPv = 1 then { a with depth := depth, score := score, mate := mate } else a
          { st with currentAnalysis :=
              { a1 with moves := setMoveSlot a1.moves multiPv ⟨primaryMove, score, mate, uciTokens⟩ } }
  else st

/-- The `bestmove` block of `parseEngineOutput` (engine.js:136-143): it
never mutates state — it only (possibly) invokes the callback. -/
def bestmoveOuts (line : JsStr) (st1 : EngineState) : List EngineOut :=
  if ("bestmove".toList).isPrefixOf line then
    match st1.analysisCallback with
    | some cb =>
      if 0 < st1.currentAnalysis.moves.length then
        [EngineOut.invoke cb (flushResult st1.currentAnalysis)]
      else []
    | none => []
  else []

/-- `StockfishEngine.parseEngineOutput` (engine.js:79-144): the info
block runs first, then the bestmove block on the resulting state. -/
def parseEngineOutput (line : JsStr) (st : EngineState) :
    EngineState × List EngineOut :=
  (parseInfoLine line st, bestmoveOuts line (parseInfoLine line st))

/-- `StockfishEngine.sendCommand` (engine.js:149-153): posts only when
the worker exists. -/
def sendCommand (st : EngineState) (cmd : JsStr) : List EngineOut :=
  if st.worker then [EngineOut.post (WorkerMsg.command cmd)] else []

/-- `StockfishEngine.analyze` (engine.js:161-173): replace the callback,
reset the aggregate, send `position fen ...` then `go depth ...`. -/
def analyze (fen : JsStr) (depth : Nat) (cb : Nat) (st : EngineState) :
    EngineState × List EngineOut :=
  let st1 := { st with isAnalyzing := true, analysisCallback := some cb,
                       currentAnalysis := emptyAnalysis }
  (st1, sendCommand st1 (("position fen ".toList) ++ fen)
      ++ sendCommand st1 (("go depth ".toList) ++ (Nat.repr depth).toList))

/-- `StockfishEngine.stop` (engine.js:178-184): clear the callback and
post `{type:'stop'}` when the worker exists. -/
def engineStop (st : EngineState) : EngineState × List EngineOut :=
  let st1 := { st with isAnalyzing := false, analysisCallback := none }
  (st1, if st1.worker then [EngineOut.post WorkerMsg.stop] else [])

/-- An externally triggered coordinator step: an `output` line from the
worker, an `analyze()` call, or a `stop()` call. -/
inductive EngineEv
  | line (s : JsStr)
  | analyzeReq (fen : JsStr) (depth : Nat) (cb : Nat)
  | stopReq
deriving DecidableEq, Repr

def engineStep : EngineEv → EngineState → EngineState × List EngineOut
  | EngineEv.line s, st => parseEngineOutput s st
  | EngineEv.analyzeReq f d cb, st => analyze f d cb st
  | EngineEv.stopReq, st => engineStop st

/-- Run a sequence of coordinator steps, accumulating the observable
effects in order. -/
def engineRun : List EngineEv → EngineState → EngineState × List EngineOut
  | [], st => (st, [])
  | ev :: evs, st =>
    let r1 := engineStep ev st
    let r2 := engineRun evs r1.1
    (r2.1, r1.2 ++ r2.2)

/-- Number of invocations of the callback identified by `cb` in a list of
observable effects. -/
def invocationsOf (cb : Nat) (outs : List EngineOut) : Nat :=
  outs.countP fun o =>
    match o with
    | EngineOut.invoke c _ => c == cb
    | EngineOut.post _ => false

/-- The engine state right after `init()` resolves: worker present, no
callback, empty aggregate. -/
def engInit : EngineState := ⟨true, false, none, emptyAnalysis⟩

/-- The multipv rank of a line: the `multipv (\d+)` capture, defaulting
to 1 when the token is absent (engine.js:89). -/
def multipvOf (line : JsStr) : Nat := (scanKeyNat ("multipv ".toList) line).getD 1

/-! ### Engine coordinator lemmas -/

theorem invocationsOf_append (cb : Nat) (xs ys : List EngineOut) :
    invocationsOf cb (xs ++ ys) = invocationsOf cb xs + invocationsOf cb ys :=
  List.countP_append _ _ _

theorem invocationsOf_sendCommand (cb : Nat) (st : EngineState) (cmd : JsStr) :
    invocationsOf cb (sendCommand st cmd) = 0 := by
  unfold sendCommand
  split <;> simp [invocationsOf]

/-- The info block touches only `currentAnalysis`: the callback slot is
untouched. -/
theorem parseInfoLine_callback (line : JsStr) (st : EngineState) :
    (parseInfoLine line st).analysisCallback = st.analysisCallback := by
  unfold parseInfoLine
  repeat' split
  all_goals (dsimp only; try split)
  all_goals rfl

theorem parseEngineOutput_fst (line : JsStr) (st : EngineState) :
    (parseEngineOutput line st).1 = parseInfoLine line st := rfl

theorem parseEngineOutput_callback (line : JsStr) (st : EngineState) :
    (parseEngineOutput line st).1.analysisCallback = st.analysisCallback :=
  parseInfoLine_callback line st

theorem bestmoveOuts_callback_none (line : JsStr) (st1 : EngineState)
    (h : st1.analysisCallback = none) : bestmoveOuts line st1 = [] := by
  unfold bestmoveOuts
  rw [h]
  split <;> rfl

theorem invocationsOf_bestmoveOuts_ne (line : JsStr) (st1 : EngineState)
    (cb c : Nat) (h : st1.analysisCallback = some c) (hne : c ≠ cb) :
    invocationsOf cb (bestmoveOuts line st1) = 0 := by
  unfold bestmoveOuts
  rw [h]
  split
  · dsimp only
    split
    · simp [invocationsOf, hne]
    · rfl
  · rfl

theorem invocationsOf_singleton_le (cb : Nat) (o : EngineOut) :
    invocationsOf cb [o] ≤ 1 := by
  simp only [invocationsOf, List.countP_cons, List.countP_nil]
  split <;> simp

theorem invocationsOf_bestmoveOuts_le (line : JsStr) (st1 : EngineState) (cb : Nat) :
    invocationsOf cb (bestmoveOuts line st1)
      ≤ if ("bestmove".toList).isPrefixOf line then 1 else 0 := by
  unfold bestmoveOuts
  by_cases hbm : ("bestmove".toList).isPrefixOf line
  · rw [if_pos hbm, if_pos hbm]
    cases hc : st1.analysisCallback with
    | none => simp [invocationsOf]
    | some c =>
      dsimp only
      split
      · exact invocationsOf_singleton_le cb _
      · simp [invocationsOf]
  · rw [if_neg hbm, if_neg hbm]
    simp [invocationsOf]

/-- With no callback ever matching `cb`, a stream of output lines never
invokes `cb`. -/
theorem run_lines_invocations_zero (lines : List JsStr) (st : EngineState) (cb : Nat)
    (h : st.analysisCallback ≠ some cb) :
    invocationsOf cb (engineRun (lines.map EngineEv.line) st).2 = 0 := by
  induction lines generalizing st with
  | nil => rfl
  | cons l ls ih =>
    simp only [List.map_cons, engineRun, engineStep]
    rw [invocationsOf_append]
    have h1 : invocationsOf cb (parseEngineOutput l st).2 = 0 := by
      show invocationsOf cb (bestmoveOuts l (parseInfoLine l st)) = 0
      cases hcb : (parseInfoLine l st).analysisCallback with
      | none => rw [bestmoveOuts_callback_none l _ hcb]; rfl
      | some c =>
        refine invocationsOf_bestmoveOuts_ne l _ cb c hcb ?_
        intro hc
        rw [parseInfoLine_callback] at hcb
        exact h (hc ▸ hcb)
    have h2 : (parseEngineOutput l st).1.analysisCallback ≠ some cb := by
      rw [parseEngineOutput_callback]; exact h
    rw [h1, ih _ h2]

/-- A stream of output lines invokes the callback at most once per
`bestmove` line. -/
theorem run_lines_invocations_le (lines : List JsStr) (st : EngineState) (cb : Nat) :
    invocationsOf cb (engineRun (lines.map EngineEv.line) st).2
      ≤ lines.countP (fun l => ("bestmove".toList).isPrefixOf l) := by
  induction lines generalizing st with
  | nil => simp [engineRun, invocationsOf]
  | cons l ls ih =>
    simp only [List.map_cons, engineRun, engineStep]
    rw [invocationsOf_append, List.countP_cons]
    have hsnd : (parseEngineOutput l st).2 = bestmoveOuts l (parseInfoLine l st) := rfl
    have h1 := invocationsOf_bestmoveOuts_le l (parseInfoLine l st) cb
    rw [← hsnd] at h1
    have h2 := ih (parseEngineOutput l st).1
    by_cases hbm : ("bestmove".toList).isPrefixOf l
    · rw [if_pos hbm] at h1
      simp only [hbm, if_true]
      omega
    · rw [if_neg hbm] at h1
      simp only [hbm, Bool.false_eq_true, if_false]
      omega

theorem engineRun_cons (ev : EngineEv) (evs : List EngineEv) (st : EngineState) :
    engineRun (ev :: evs) st
      = ((engineRun evs (engineStep ev st).1).1,
         (engineStep ev st).2 ++ (engineRun evs (engineStep ev st).1).2) := rfl

/-- Writing slot `i` leaves every other slot unchanged (holes read as
`none` both before and past the end, as in JS). -/
theorem writePad_getD (i : Nat) :
    ∀ (xs : List (Option MoveInfo)) (m : MoveInfo) (j : Nat), j ≠ i →
      (writePad xs i m).getD j none = xs.getD j none := by
  induction i with
  | zero =>
    intro xs m j hj
    cases xs with
    | nil =>
      cases j with
      | zero => exact absurd rfl hj
      | succ k => simp [writePad]
    | cons x xs =>
      cases j with
      | zero => exact absurd rfl hj
      | succ k => simp [writePad]
  | succ i ih =>
    intro xs m j hj
    cases xs with
    | nil =>
      cases j with
      | zero => simp [writePad]
      | succ k =>
        simp only [writePad, List.getD_cons_succ]
        have := ih [] m k (by omega)
        simpa using this
    | cons x xs =>
      cases j with
      | zero => simp [writePad]
      | succ k =>
        simp only [writePad, List.getD_cons_succ]
        exact ih xs m k (by omega)

theorem setMoveSlot_getD (moves : List (Option MoveInfo)) (k : Nat) (mi : MoveInfo)
    (j : Nat) (h : j + 1 ≠ k) :
    (setMoveSlot moves k mi).getD j none = moves.getD j none := by
  cases k with
  | zero => rfl
  | succ i => exact writePad_getD i moves mi j (by omega)

theorem invocationsOf_analyze (cb : Nat) (f : JsStr) (d c : Nat) (st : EngineState) :
    invocationsOf cb (analyze f d c st).2 = 0 := by
  unfold analyze
  dsimp only
  rw [invocationsOf_append, invocationsOf_sendCommand, invocationsOf_sendCommand]

theorem analyze_callback (f : JsStr) (d c : Nat) (st : EngineState) :
    (analyze f d c st).1.analysisCallback = some c := rfl

/-! ### Claim theorems for the engine coordinator -/

/-- C1 (amended): when a callback is registered and the aggregate's move
array is non-empty, a `bestmove` line delivers the aggregate — with the
still-empty rank slots filtered out — to the callback exactly once, but
it does NOT clear the callback or the aggregate: the state is returned
unchanged, so a second `bestmove` line with no intervening progress lines
invokes the callback again with the same aggregate. -/
theorem parseEngineOutput_bestmove_delivers_no_clear (st : EngineState) (cb : Nat)
    (line : JsStr)
    (hcb : st.analysisCallback = some cb)
    (hmv : st.currentAnalysis.moves ≠ [])
    (hbm : (("bestmove".toList).isPrefixOf line) = true) :
    parseEngineOutput line st
      = (st, [EngineOut.invoke cb (flushResult st.currentAnalysis)]) := by
  obtain ⟨cs, rfl⟩ : ∃ cs, line = 'b' :: cs := by
    cases line with
    | nil => simp [List.isPrefixOf] at hbm
    | cons c cs =>
      simp only [List.isPrefixOf, Bool.and_eq_true, beq_iff_eq] at hbm
      exact ⟨cs, by rw [hbm.1]⟩
  have hinfo : parseInfoLine ('b' :: cs) st = st := by
    unfold parseInfoLine
    rw [if_neg]
    have hib : ('i' == 'b') = false := by decide
    simp [List.isPrefixOf, hib]
  show (parseInfoLine ('b' :: cs) st, bestmoveOuts ('b' :: cs) (parseInfoLine ('b' :: cs) st)) = _
  rw [hinfo]
  simp only [Prod.mk.injEq, true_and]
  unfold bestmoveOuts
  rw [if_pos hbm, hcb]
  dsimp only
  rw [if_pos (List.length_pos.mpr hmv)]

/-- C1 witness: a concrete post-analysis state with one filled rank
slot. -/
def stW1 : EngineState :=
  ⟨true, true, some 7,
   ⟨some 35, none, 10, [some ⟨("e2e4".toList), some 35, none, [("e2e4".toList)]⟩]⟩⟩

theorem parseEngineOutput_bestmove_delivers_no_clear_witness :
    parseEngineOutput (("bestmove e2e4".toList)) stW1
      = (stW1, [EngineOut.invoke 7 (flushResult stW1.currentAnalysis)]) :=
  parseEngineOutput_bestmove_delivers_no_clear stW1 7 (("bestmove e2e4".toList))
    rfl (by decide) (by decide)

/-- C1 counterexample: after an `analyze` request, one progress line and
one `bestmove` line, the callback is still registered and the aggregate
still holds a move (the claimed clearing does not happen), and a second
`bestmove` line with no intervening progress lines invokes the callback a
second time. -/
theorem parseEngineOutput_bestmove_double_flush :
    ((engineRun [EngineEv.analyzeReq (("7k/8".toList)) 15 7,
        EngineEv.line (("info depth 1 score cp 3 pv e2e4".toList)),
        EngineEv.line (("bestmove e2e4".toList))] engInit).1.analysisCallback = some 7) ∧
    ((engineRun [EngineEv.analyzeReq (("7k/8".toList)) 15 7,
        EngineEv.line (("info depth 1 score cp 3 pv e2e4".toList)),
        EngineEv.line (("bestmove e2e4".toList))] engInit).1.currentAnalysis.moves ≠ []) ∧
    invocationsOf 7 ((engineRun [EngineEv.analyzeReq (("7k/8".toList)) 15 7,
        EngineEv.line (("info depth 1 score cp 3 pv e2e4".toList)),
        EngineEv.line (("bestmove e2e4".toList)),
        EngineEv.line (("bestmove e2e4".toList))] engInit).2) = 2 := by
  refine ⟨by decide, by decide, by decide⟩

/-- C2 (amended): after `analyze(fen1,d1,cb1)` immediately followed by
`analyze(fen2,d2,cb2)`, the first callback is never invoked by any later
stream of engine output lines; the second callback is invoked at most
once per `bestmove` line — but, the callback not being cleared on
delivery, it is not limited to one invocation overall. -/
theorem analyze_twice_callback_discipline (st0 : EngineState) (f1 f2 : JsStr)
    (d1 d2 cb1 cb2 : Nat) (hne : cb1 ≠ cb2) (lines : List JsStr) :
    invocationsOf cb1 (engineRun (EngineEv.analyzeReq f1 d1 cb1 ::
        EngineEv.analyzeReq f2 d2 cb2 :: lines.map EngineEv.line) st0).2 = 0 ∧
    invocationsOf cb2 (engineRun (EngineEv.analyzeReq f1 d1 cb1 ::
        EngineEv.analyzeReq f2 d2 cb2 :: lines.map EngineEv.line) st0).2
      ≤ lines.countP (fun l => ("bestmove".toList).isPrefixOf l) := by
  rw [engineRun_cons, engineRun_cons]
  simp only [engineStep]
  constructor
  · rw [invocationsOf_append, invocationsOf_append]
    rw [invocationsOf_analyze, invocationsOf_analyze]
    rw [run_lines_invocations_zero lines _ cb1 ?_]
    rw [analyze_callback]
    intro hc
    exact hne (Option.some.inj hc).symm
  · rw [invocationsOf_append, invocationsOf_append]
    rw [invocationsOf_analyze, invocationsOf_analyze]
    simpa using run_lines_invocations_le lines _ cb2

theorem analyze_twice_callback_discipline_witness :
    (1 : Nat) ≠ 2 ∧
    (invocationsOf 1 (engineRun (EngineEv.analyzeReq (("7k/8".toList)) 10 1 ::
        EngineEv.analyzeReq (("8/7K".toList)) 12 2 ::
        ([("bestmove e2e4".toList)] : List JsStr).map EngineEv.line) engInit).2 = 0 ∧
     invocationsOf 2 (engineRun (EngineEv.analyzeReq (("7k/8".toList)) 10 1 ::
        EngineEv.analyzeReq (("8/7K".toList)) 12 2 ::
        ([("bestmove e2e4".toList)] : List JsStr).map EngineEv.line) engInit).2
       ≤ ([("bestmove e2e4".toList)] : List JsStr).countP
           (fun l => ("bestmove".toList).isPrefixOf l)) :=
  ⟨by decide,
   analyze_twice_callback_discipline engInit (("7k/8".toList)) (("8/7K".toList))
     10 12 1 2 (by decide) [("bestmove e2e4".toList)]⟩

/-- C2 counterexample: two `analyze` calls in quick succession with no
result delivered in between; after the second, a progress line and two
`bestmove` lines arrive (the first request's terminal line and then the
second's) — the second callback is invoked twice, not at most once. -/
theorem analyze_twice_second_cb_twice :
    invocationsOf 2 ((engineRun [EngineEv.analyzeReq (("7k/8".toList)) 10 1,
        EngineEv.analyzeReq (("8/7K".toList)) 12 2,
        EngineEv.line (("info depth 1 score cp 3 pv e2e4".toList)),
        EngineEv.line (("bestmove e2e4".toList)),
        EngineEv.line (("bestmove e2e4".toList))] engInit).2) = 2 := by
  decide

/-- C4 (confirmed): a progress line whose explicit multipv rank is not 1
leaves the aggregate's depth, score and mate unchanged and writes only
the slot at that rank (every slot at another rank reads the same before
and after); only a line with multipv 1 — or with no multipv token, which
defaults to rank 1 — can update depth, score and mate. -/
theorem multipv_ne_one_frame (line : JsStr) (st : EngineState)
    (h : multipvOf line ≠ 1) :
    (parseEngineOutput line st).1.currentAnalysis.depth = st.currentAnalysis.depth ∧
    (parseEngineOutput line st).1.currentAnalysis.score = st.currentAnalysis.score ∧
    (parseEngineOutput line st).1.currentAnalysis.mate = st.currentAnalysis.mate ∧
    ∀ j : Nat, j + 1 ≠ multipvOf line →
      (parseEngineOutput line st).1.currentAnalysis.moves.getD j none
        = st.currentAnalysis.moves.getD j none := by
  have hfst : ∀ (l : JsStr) (s : EngineState),
      (parseEngineOutput l s).1 = parseInfoLine l s := fun _ _ => rfl
  simp only [hfst]
  unfold multipvOf at h ⊢
  unfold parseInfoLine
  repeat' split
  all_goals try dsimp only
  all_goals repeat' split
  all_goals
    first
      | exact ⟨rfl, rfl, rfl, fun j _ => rfl⟩
      | (exact absurd (by assumption) h)
      | exact ⟨rfl, rfl, rfl, fun j hj => setMoveSlot_getD _ _ _ j hj⟩

theorem multipv_ne_one_frame_witness :
    multipvOf (("info depth 9 multipv 2 score cp -5 pv d2d4".toList)) ≠ 1 ∧
    ((parseEngineOutput (("info depth 9 multipv 2 score cp -5 pv d2d4".toList)) stW1).1.currentAnalysis.depth
        = stW1.currentAnalysis.depth ∧
     (parseEngineOutput (("info depth 9 multipv 2 score cp -5 pv d2d4".toList)) stW1).1.currentAnalysis.score
        = stW1.currentAnalysis.score ∧
     (parseEngineOutput (("info depth 9 multipv 2 score cp -5 pv d2d4".toList)) stW1).1.currentAnalysis.mate
        = stW1.currentAnalysis.mate) ∧
    (parseEngineOutput (("info depth 9 multipv 2 score cp -5 pv d2d4".toList)) stW1).1.currentAnalysis.moves.getD 0 none
        = stW1.currentAnalysis.moves.getD 0 none :=
  ⟨by decide,
   ⟨(multipv_ne_one_frame (("info depth 9 multipv 2 score cp -5 pv d2d4".toList)) stW1 (by decide)).1,
    (multipv_ne_one_frame (("info depth 9 multipv 2 score cp -5 pv d2d4".toList)) stW1 (by decide)).2.1,
    (multipv_ne_one_frame (("info depth 9 multipv 2 score cp -5 pv d2d4".toList)) stW1 (by decide)).2.2.1⟩,
   (multipv_ne_one_frame (("info depth 9 multipv 2 score cp -5 pv d2d4".toList)) stW1 (by decide)).2.2.2
     0 (by decide)⟩

/-- C5 (confirmed): `stop()` clears the active callback and posts the
abort message to the engine worker (which exists), and any stream of
output lines — `bestmove` lines included — arriving before the next
`analyze()` invokes no callback at all. -/
theorem stop_clears_callback_and_aborts (st : EngineState) (hw : st.worker = true)
    (lines : List JsStr) :
    (engineStop st).1.analysisCallback = none ∧
    (engineStop st).2 = [EngineOut.post WorkerMsg.stop] ∧
    ∀ cb : Nat,
      invocationsOf cb (engineRun (lines.map EngineEv.line) (engineStop st).1).2 = 0 := by
  refine ⟨rfl, ?_, ?_⟩
  · unfold engineStop
    dsimp only
    rw [if_pos hw]
  · intro cb
    exact run_lines_invocations_zero lines _ cb (by simp [engineStop])

/-! ## Claim theorems for FEN normalization -/

/-- C3 counterexample: a position string with 2 fields is in the claim's
domain (fewer than 6 fields) but both normalizations produce a string
with 7 single-space-separated fields, not 6 — the full default suffix is
appended regardless of how many fields are missing. -/
theorem normalize_two_fields_not_six :
    ((jsSplit ' ' (("8/8/8/8/8/8/8/8 b".toList))).length < 6) ∧
    (jsSplit ' ' (loadPositionNormalize (("8/8/8/8/8/8/8/8 b".toList)))).length ≠ 6 ∧
    (jsSplit ' ' (loadFenListNormalize (("8/8/8/8/8/8/8/8 b".toList)))).length ≠ 6 := by
  refine ⟨by decide, by decide, by decide⟩

/-- C3 (amended): for every position string with fewer than 6
space-separated fields, normalization (identical in `loadPosition` and
`loadFenList`) appends the full default suffix `w - - 0 1` after the
input's fields; the result therefore has exactly 6 fields only when the
input consisted of a single field. -/
theorem normalize_appends_full_suffix (fen : JsStr)
    (h : (jsSplit ' ' fen).length < 6) :
    jsSplit ' ' (loadPositionNormalize fen)
      = jsSplit ' ' fen ++ [['w'], ['-'], ['-'], ['0'], ['1']] ∧
    loadFenListNormalize fen = loadPositionNormalize fen ∧
    ((jsSplit ' ' (loadPositionNormalize fen)).length = 6
      ↔ (jsSplit ' ' fen).length = 1) := by
  refine ⟨jsSplit_normalize fen h, rfl, ?_⟩
  rw [jsSplit_normalize fen h, List.length_append]
  simp only [List.length_cons, List.length_nil]
  omega

theorem normalize_appends_full_suffix_witness :
    ((jsSplit ' ' (("8/8/8/8/8/8/8/8".toList))).length < 6) ∧
    (jsSplit ' ' (loadPositionNormalize (("8/8/8/8/8/8/8/8".toList)))
      = jsSplit ' ' (("8/8/8/8/8/8/8/8".toList)) ++ [['w'], ['-'], ['-'], ['0'], ['1']] ∧
     loadFenListNormalize (("8/8/8/8/8/8/8/8".toList))
      = loadPositionNormalize (("8/8/8/8/8/8/8/8".toList)) ∧
     ((jsSplit ' ' (loadPositionNormalize (("8/8/8/8/8/8/8/8".toList)))).length = 6
      ↔ (jsSplit ' ' (("8/8/8/8/8/8/8/8".toList))).length = 1)) :=
  ⟨by decide, normalize_appends_full_suffix (("8/8/8/8/8/8/8/8".toList)) (by decide)⟩

/-! ## Move history (`main.js`)

A move record produced by the rules-engine collaborator (`chess.move`);
only its identity matters to the history bookkeeping. -/

structure Move where
  src : JsStr
  dst : JsStr
  san : JsStr
deriving DecidableEq, Repr

/-- The move-history update in `BoardAnalyzer.onMove` (main.js:951-957):

```js
if (this.currentMoveIndex < this.moveHistory.length - 1) {
    this.moveHistory = this.moveHistory.slice(0, this.currentMoveIndex + 1);
}
this.moveHistory.push(move);
this.currentMoveIndex++;
```
-/
def onMoveHistoryUpdate (hist : List Move) (idx : Int) (m : Move) :
    List Move × Int :=
  let hist1 := if idx < (hist.length : Int) - 1 then hist.take ((idx + 1).toNat) else hist
  (hist1 ++ [m], idx + 1)

/-- C6 (confirmed): while `canRedo` holds (`cursor < length - 1`),
applying a new move truncates the history to `cursor + 1` elements, then
appends the move and advances the cursor. -/
theorem onMove_truncates_then_appends (hist : List Move) (idx : Int) (m : Move)
    (h : idx < (hist.length : Int) - 1) :
    onMoveHistoryUpdate hist idx m
      = (hist.take ((idx + 1).toNat) ++ [m], idx + 1) ∧
    (onMoveHistoryUpdate hist idx m).1.length = (idx + 1).toNat + 1 := by
  have he : onMoveHistoryUpdate hist idx m
      = (hist.take ((idx + 1).toNat) ++ [m], idx + 1) := by
    unfold onMoveHistoryUpdate
    dsimp only
    rw [if_pos h]
  refine ⟨he, ?_⟩
  rw [he]
  simp only [List.length_append, List.length_take, List.length_cons, List.length_nil]
  omega

def mv1 : Move := ⟨("e2".toList), ("e4".toList), ("e4".toList)⟩

def mv2 : Move := ⟨("e7".toList), ("e5".toList), ("e5".toList)⟩

def mv3 : Move := ⟨("g1".toList), ("f3".toList), ("Nf3".toList)⟩

def mv4 : Move := ⟨("b8".toList), ("c6".toList), ("Nc6".toList)⟩

/-- C6 witness: from history `[m1,m2,m3]` at cursor 1, applying `m4`
yields `[m1,m2,m4]` at cursor 2. -/
theorem onMove_truncates_then_appends_witness :
    ((1 : Int) < ([mv1, mv2, mv3].length : Int) - 1) ∧
    onMoveHistoryUpdate [mv1, mv2, mv3] 1 mv4 = ([mv1, mv2, mv4], 2) :=
  ⟨by decide, by
    rw [(onMove_truncates_then_appends [mv1, mv2, mv3] 1 mv4 (by decide)).1]
    decide⟩

/-! ## Undo/redo navigation (`main.js`)

`goToPrevMove`/`goToNextMove` (main.js:820-838) move the history cursor
and mutate the rules-engine instance (`chess.undo()` pops the most
recently applied move, `chess.move(m)` applies one).  `chessStack` embeds
the rules-engine instance as the list of moves applied on top of the
loaded starting position, which determines the board position. -/

structure NavState where
  moveHistory : List Move
  currentMoveIndex : Int
  chessStack : List Move
deriving DecidableEq, Repr

/-- `BoardAnalyzer.goToPrevMove` (main.js:820-826). -/
def goToPrevMove (s : NavState) : NavState :=
  if 0 ≤ s.currentMoveIndex then
    { s with chessStack := s.chessStack.dropLast,
             currentMoveIndex := s.currentMoveIndex - 1 }
  else s

/-- `BoardAnalyzer.goToNextMove` (main.js:831-838); the array read
`moveHistory[currentMoveIndex + 1]` is in range by the guard. -/
def goToNextMove (s : NavState) : NavState :=
  if s.currentMoveIndex < (s.moveHistory.length : Int) - 1 then
    { s with
      chessStack := s.chessStack
        ++ [s.moveHistory.getD ((s.currentMoveIndex + 1).toNat) ⟨[], [], []⟩],
      currentMoveIndex := s.currentMoveIndex + 1 }
  else s

/-- The coupling the program maintains between the history cursor and the
rules-engine instance: the applied-move stack is exactly the history up
to the cursor, and the cursor is in range. -/
def navInv (s : NavState) : Prop :=
  -1 ≤ s.currentMoveIndex ∧ s.currentMoveIndex < (s.moveHistory.length : Int) ∧
  s.chessStack = s.moveHistory.take ((s.currentMoveIndex + 1).toNat)

inductive NavOp
  | prevMove
  | nextMove
deriving DecidableEq, Repr

def navStep : NavOp → NavState → NavState
  | NavOp.prevMove, s => goToPrevMove s
  | NavOp.nextMove, s => goToNextMove s

def navRun (ops : List NavOp) (s : NavState) : NavState :=
  ops.foldl (fun t op => navStep op t) s

theorem listTake_dropLast {α : Type} (l : List α) (k : Nat) (h : k < l.length) :
    (l.take (k + 1)).dropLast = l.take k := by
  induction l generalizing k with
  | nil => simp at h
  | cons x xs ih =>
    cases k with
    | zero => simp
    | succ j =>
      have hx : j < xs.length := by simpa using h
      cases xs with
      | nil => simp at hx
      | cons y ys =>
        show (x :: (y :: ys).take (j + 1)).dropLast = x :: (y :: ys).take j
        have hne : (y :: ys).take (j + 1) ≠ [] := by simp
        rw [List.dropLast_cons_of_ne_nil hne]
        rw [ih j hx]

theorem listTake_concat_getD {α : Type} (l : List α) (k : Nat) (d : α)
    (h : k < l.length) :
    l.take k ++ [l.getD k d] = l.take (k + 1) := by
  induction l generalizing k with
  | nil => simp at h
  | cons x xs ih =>
    cases k with
    | zero => simp
    | succ j =>
      have hx : j < xs.length := by simpa using h
      show x :: (xs.take j ++ [xs.getD j d]) = x :: xs.take (j + 1)
      rw [ih j hx]

theorem navStep_moveHistory (op : NavOp) (s : NavState) :
    (navStep op s).moveHistory = s.moveHistory := by
  cases op with
  | prevMove =>
    show (goToPrevMove s).moveHistory = s.moveHistory
    unfold goToPrevMove
    split <;> rfl
  | nextMove =>
    show (goToNextMove s).moveHistory = s.moveHistory
    unfold goToNextMove
    split <;> rfl

theorem navStep_inv (op : NavOp) (s : NavState) (h : navInv s) :
    navInv (navStep op s) := by
  obtain ⟨h1, h2, h3⟩ := h
  cases op with
  | prevMove =>
    show navInv (goToPrevMove s)
    unfold goToPrevMove
    split
    · rename_i hg
      refine ⟨?_, ?_, ?_⟩
      · show -1 ≤ s.currentMoveIndex - 1
        omega
      · show s.currentMoveIndex - 1 < (s.moveHistory.length : Int)
        omega
      · show s.chessStack.dropLast
          = s.moveHistory.take ((s.currentMoveIndex - 1 + 1).toNat)
        rw [h3]
        have hk : (s.currentMoveIndex + 1).toNat = s.currentMoveIndex.toNat + 1 := by omega
        have hk2 : (s.currentMoveIndex - 1 + 1).toNat = s.currentMoveIndex.toNat := by omega
        have hlt : s.currentMoveIndex.toNat < s.moveHistory.length := by omega
        rw [hk, hk2, listTake_dropLast _ _ hlt]
    · exact ⟨h1, h2, h3⟩
  | nextMove =>
    show navInv (goToNextMove s)
    unfold goToNextMove
    split
    · rename_i hg
      refine ⟨?_, ?_, ?_⟩
      · show -1 ≤ s.currentMoveIndex + 1
        omega
      · show s.currentMoveIndex + 1 < (s.moveHistory.length : Int)
        omega
      · show s.chessStack
            ++ [s.moveHistory.getD ((s.currentMoveIndex + 1).toNat) ⟨[], [], []⟩]
          = s.moveHistory.take ((s.currentMoveIndex + 1 + 1).toNat)
        rw [h3]
        have hk : (s.currentMoveIndex + 1).toNat < s.moveHistory.length := by omega
        have hk2 : (s.currentMoveIndex + 1 + 1).toNat = (s.currentMoveIndex + 1).toNat + 1 := by
          omega
        rw [hk2, listTake_concat_getD _ _ _ hk]
    · exact ⟨h1, h2, h3⟩

theorem navRun_moveHistory (ops : List NavOp) (s : NavState) :
    (navRun ops s).moveHistory = s.moveHistory := by
  induction ops generalizing s with
  | nil => rfl
  | cons op ops ih =>
    show (navRun ops (navStep op s)).moveHistory = s.moveHistory
    rw [ih, navStep_moveHistory]

theorem navRun_inv (ops : List NavOp) (s : NavState) (h : navInv s) :
    navInv (navRun ops s) := by
  induction ops generalizing s with
  | nil => exact h
  | cons op ops ih => exact ih _ (navStep_inv op s h)

/-- Under the invariant, a state is determined by its history and
cursor. -/
theorem navInv_ext (s t : NavState) (hs : navInv s) (ht : navInv t)
    (hh : s.moveHistory = t.moveHistory)
    (hi : s.currentMoveIndex = t.currentMoveIndex) : s = t := by
  obtain ⟨fl1, ix1, cs1⟩ := s
  obtain ⟨fl2, ix2, cs2⟩ := t
  obtain ⟨-, -, h3s⟩ := hs
  obtain ⟨-, -, h3t⟩ := ht
  dsimp only at hh hi h3s h3t
  subst hh hi
  rw [h3s, h3t]

/-- C8 (confirmed): any sequence of `goToPrevMove`/`goToNextMove` with no
intervening move application that returns the cursor to its starting
value leaves the history contents, the cursor, and the board position
(the applied-move stack of the rules-engine instance) all equal to their
values before the sequence. -/
theorem undo_redo_roundtrip (s : NavState) (ops : List NavOp) (hinv : navInv s)
    (hcur : (navRun ops s).currentMoveIndex = s.currentMoveIndex) :
    navRun ops s = s :=
  navInv_ext _ _ (navRun_inv ops s hinv) hinv (navRun_moveHistory ops s) hcur

theorem undo_redo_roundtrip_witness :
    navInv ⟨[mv1, mv2], 1, [mv1, mv2]⟩ ∧
    (navRun [NavOp.prevMove, NavOp.nextMove]
        ⟨[mv1, mv2], 1, [mv1, mv2]⟩).currentMoveIndex = 1 ∧
    navRun [NavOp.prevMove, NavOp.nextMove] ⟨[mv1, mv2], 1, [mv1, mv2]⟩
      = ⟨[mv1, mv2], 1, [mv1, mv2]⟩ :=
  ⟨by refine ⟨by decide, by decide, by decide⟩, by decide,
   undo_redo_roundtrip ⟨[mv1, mv2], 1, [mv1, mv2]⟩ [NavOp.prevMove, NavOp.nextMove]
     ⟨by decide, by decide, by decide⟩ (by decide)⟩

theorem stop_clears_callback_and_aborts_witness :
    engInit.worker = true ∧
    (engineStop engInit).1.analysisCallback = none ∧
    (engineStop engInit).2 = [EngineOut.post WorkerMsg.stop] ∧
    invocationsOf 7 (engineRun (([("bestmove e2e4".toList)] : List JsStr).map EngineEv.line)
        (engineStop engInit).1).2 = 0 :=
  ⟨rfl,
   (stop_clears_callback_and_aborts engInit rfl [("bestmove e2e4".toList)]).1,
   (stop_clears_callback_and_aborts engInit rfl [("bestmove e2e4".toList)]).2.1,
   (stop_clears_callback_and_aborts engInit rfl [("bestmove e2e4".toList)]).2.2 7⟩


/-! ## FEN list navigation (`main.js`)

`loadNextFen`/`loadNextFenSkipInvalid` (main.js:750-773) step the
position-list cursor forward, skipping entries the rules-engine
collaborator rejects.  The collaborator (`new Chess(fen)` succeeding or
throwing) is the parameter `valid`.  `loadPositionNoSkip` embeds
`BoardAnalyzer.loadPosition` with `skipOnError = false`, the only form the
navigation functions call; the board/FEN-input update is `loadedFen`, the
`showStatus`/`showError`/`clearError` channels are `statusMsg`/`errorMsg`
(the dynamic part of the `'Invalid FEN: ' + error.message` text is not
modelled).  Fields of `BoardAnalyzer` the claims never read (move history,
analysis toggles, UI counters) are omitted. -/

structure FenNavState where
  fenList : List JsStr
  currentFenIndex : Int
  loadedFen : Option JsStr
  statusMsg : Option JsStr
  errorMsg : Option JsStr
deriving DecidableEq, Repr

/-- JavaScript `Array.prototype.indexOf`: first index of `x`, or `-1`. -/
def jsIndexOf : List JsStr → JsStr → Int
  | [], _ => -1
  | y :: ys, x =>
    if y = x then 0
    else
      let r := jsIndexOf ys x
      if r = -1 then -1 else r + 1

/-- The fixed text of `showStatus('Skipped invalid FEN(s)', 'info')`
(main.js:767). -/
def skippedInvalidMsg : JsStr := ("Skipped invalid FEN(s)".toList)

/-- The fixed text of `showError('No valid FEN found after this position')`
(main.js:772). -/
def noValidAfterMsg : JsStr := ("No valid FEN found after this position".toList)

/-- The fixed prefix of `showError('Invalid FEN: ' + error.message)`
(main.js:338). -/
def invalidFenMsgPrefix : JsStr := ("Invalid FEN: ".toList)

/-- `BoardAnalyzer.loadPosition(fen, false)` (main.js:273-341) restricted
to the state the navigation claims read: normalize, validate via the
collaborator; on success load the board, clear the error and re-derive
`currentFenIndex` from `fenList.indexOf(normalizedFen)` (main.js:304); on
failure report the error and change nothing else. -/
def loadPositionNoSkip (valid : JsStr → Bool) (st : FenNavState) (fen : JsStr) :
    Bool × FenNavState :=
  let normalizedFen := loadPositionNormalize fen
  if valid normalizedFen then
    (true, { st with
             loadedFen := some normalizedFen,
             errorMsg := none,
             currentFenIndex := jsIndexOf st.fenList normalizedFen })
  else
    (false, { st with errorMsg := some invalidFenMsgPrefix })

/-- `BoardAnalyzer.loadNextFenSkipInvalid` (main.js:763-773), its `while`
loop driven by fuel.  Each iteration advances `currentFenIndex` by one, so
`fenList.length` iterations always reach the loop's exit; the fuel-0 case
is never hit when called with that fuel. -/
def loadNextFenSkipInvalidAux (valid : JsStr → Bool) :
    Nat → FenNavState → FenNavState
  | 0, st => st
  | fuel + 1, st =>
    if st.currentFenIndex < (st.fenList.length : Int) - 1 then
      let st1 := { st with currentFenIndex := st.currentFenIndex + 1 }
      let res := loadPositionNoSkip valid st1 (st1.fenList.getD st1.currentFenIndex.toNat [])
      if res.1 then { res.2 with statusMsg := some skippedInvalidMsg }
      else loadNextFenSkipInvalidAux valid fuel res.2
    else { st with errorMsg := some noValidAfterMsg }

def loadNextFenSkipInvalid (valid : JsStr → Bool) (st : FenNavState) : FenNavState :=
  loadNextFenSkipInvalidAux valid st.fenList.length st

/-- `BoardAnalyzer.loadNextFen` (main.js:750-758). -/
def loadNextFen (valid : JsStr → Bool) (st : FenNavState) : FenNavState :=
  if st.currentFenIndex < (st.fenList.length : Int) - 1 then
    let st1 := { st with currentFenIndex := st.currentFenIndex + 1 }
    let res := loadPositionNoSkip valid st1 (st1.fenList.getD st1.currentFenIndex.toNat [])
    if res.1 then res.2
    else loadNextFenSkipInvalid valid res.2
  else st

/-- C7 (amended): with entry 0 valid, entries 1 and 2 rejected by the
rules engine and entry 3 valid, one `loadNextFen()` from index 0 lands on
index 3 with that entry loaded, and reports the fixed skip message
`Skipped invalid FEN(s)` — which carries no count of how many entries were
skipped — distinctly from the `No valid FEN found after this position`
report produced at a boundary (second scenario `stb`). -/
theorem loadNextFen_skip_invalid_lands_valid
    (valid : JsStr → Bool) (p1 p2 p3 p4 q1 q2 : JsStr)
    (sta stb : FenNavState)
    (hlist : sta.fenList = [p1, p2, p3, p4]) (hidx : sta.currentFenIndex = 0)
    (h4f : ¬ (jsSplit ' ' p4).length < 6)
    (hv2 : valid (loadPositionNormalize p2) = false)
    (hv3 : valid (loadPositionNormalize p3) = false)
    (hv4 : valid p4 = true)
    (hne1 : p1 ≠ p4) (hne2 : p2 ≠ p4) (hne3 : p3 ≠ p4)
    (hlistb : stb.fenList = [q1, q2]) (hidxb : stb.currentFenIndex = 0)
    (hvq2 : valid (loadPositionNormalize q2) = false) :
    (loadNextFen valid sta).currentFenIndex = 3 ∧
    (loadNextFen valid sta).loadedFen = some p4 ∧
    (loadNextFen valid sta).statusMsg = some skippedInvalidMsg ∧
    skippedInvalidMsg ≠ noValidAfterMsg ∧
    (loadNextFen valid stb).errorMsg = some noValidAfterMsg := by
  have hn4 : loadPositionNormalize p4 = p4 := by
    unfold loadPositionNormalize
    rw [if_neg h4f]
  obtain ⟨fla, ixa, lfa, sma, ema⟩ := sta
  obtain ⟨flb, ixb, lfb, smb, emb⟩ := stb
  dsimp only at hlist hidx hlistb hidxb
  subst hlist hidx hlistb hidxb
  have ht1 : Int.toNat 1 = 1 := rfl
  have ht2 : Int.toNat 2 = 2 := rfl
  have ht3 : Int.toNat 3 = 3 := rfl
  refine ⟨?_, ?_, ?_, by decide, ?_⟩ <;>
    norm_num [loadNextFen, loadPositionNoSkip, loadNextFenSkipInvalid,
      loadNextFenSkipInvalidAux, jsIndexOf, hn4, hv2, hv3, hv4, hvq2,
      hne1, hne2, hne3, ht1, ht2, ht3, List.getD_cons_zero, List.getD_cons_succ]

/-- Concrete 6-field position strings for the navigation scenarios; the
first field is arbitrary — validity is the rules-engine collaborator's
verdict, given by `validCD` below. -/
def pA : JsStr := ("a w - - 0 1".toList)

def pB : JsStr := ("b w - - 0 1".toList)

def pC : JsStr := ("c w - - 0 1".toList)

def pD : JsStr := ("d w - - 0 1".toList)

/-- A rules-engine verdict accepting `pA` and `pD` and rejecting the
rest. -/
def validCD : JsStr → Bool := fun s => s == pA || s == pD

/-- Scenario A: `[valid, invalid, invalid, valid]`, cursor at 0. -/
def stA : FenNavState := ⟨[pA, pB, pC, pD], 0, some pA, none, none⟩

/-- Scenario B: `[valid, invalid, valid]`, cursor at 0 — only one invalid
entry to skip. -/
def stB : FenNavState := ⟨[pA, pB, pD], 0, some pA, none, none⟩

theorem loadNextFen_skip_invalid_lands_valid_witness :
    (stA.fenList = [pA, pB, pC, pD] ∧ stA.currentFenIndex = 0 ∧
     validCD (loadPositionNormalize pB) = false ∧ validCD pD = true) ∧
    ((loadNextFen validCD stA).currentFenIndex = 3 ∧
     (loadNextFen validCD stA).loadedFen = some pD ∧
     (loadNextFen validCD stA).statusMsg = some skippedInvalidMsg ∧
     skippedInvalidMsg ≠ noValidAfterMsg ∧
     (loadNextFen validCD ⟨[pA, pB], 0, some pA, none, none⟩).errorMsg
       = some noValidAfterMsg) :=
  ⟨⟨rfl, rfl, by decide, by decide⟩,
   loadNextFen_skip_invalid_lands_valid validCD pA pB pC pD pA pB
     stA ⟨[pA, pB], 0, some pA, none, none⟩ rfl rfl (by decide) (by decide)
     (by decide) (by decide) (by decide) (by decide) (by decide) rfl rfl (by decide)⟩

/-- C7 counterexample: the skip report is the same fixed, digit-free
string whether one or two invalid entries were skipped — `next()` does
not report that "2 invalid entries were skipped"; the count is not part
of the program's report. -/
theorem loadNextFen_report_carries_no_count :
    (loadNextFen validCD stA).statusMsg = (loadNextFen validCD stB).statusMsg ∧
    (loadNextFen validCD stA).statusMsg = some skippedInvalidMsg ∧
    skippedInvalidMsg.all (fun c => !c.isDigit) = true := by
  refine ⟨by decide, by decide, by decide⟩

/-! ## Favorites store (`favorites.js`)

`FavoritesManager.getAll` (favorites.js:14-22):

```js
try {
    const stored = localStorage.getItem(this.storageKey);
    return stored ? JSON.parse(stored) : [];
} catch (e) {
    console.error('Failed to load favorites', e);
    return [];
}
```

`localStorage.getItem` is embedded as `Option JsStr` (`none` = no blob
under the key); `JSON.parse` is the external parameter `parseJson`,
returning `none` exactly when it throws. -/

structure Favorite where
  fen : JsStr
  fileName : JsStr
  date : JsStr
deriving DecidableEq, Repr

/-- A parsed JSON value as `getAll` can return it: an array of favorite
records, or any other JSON value. -/
inductive JsonValue
  | arr (elems : List Favorite)
  | nonArr
deriving DecidableEq, Repr

/-- `FavoritesManager.getAll` (favorites.js:14-22).  The JS truthiness
test `stored ? ... : []` sends both `null` and the empty string to `[]`;
a `JSON.parse` throw is caught and yields `[]`. -/
def FavoritesManager.getAll (parseJson : JsStr → Option JsonValue)
    (stored : Option JsStr) : JsonValue :=
  match stored with
  | none => JsonValue.arr []
  | some s =>
    if s.isEmpty then JsonValue.arr []
    else
      match parseJson s with
      | some v => v
      | none => JsonValue.arr []

/-- C9 (confirmed): `getAll` is total (it never throws): with no blob
stored under the key it returns the empty list, and with a stored blob
the parser rejects (JSON.parse throws) it also returns the empty
list. -/
theorem favorites_getAll_safe (parseJson : JsStr → Option JsonValue) :
    FavoritesManager.getAll parseJson none = JsonValue.arr [] ∧
    ∀ s : JsStr, parseJson s = none →
      FavoritesManager.getAll parseJson (some s) = JsonValue.arr [] := by
  refine ⟨rfl, ?_⟩
  intro s hs
  unfold FavoritesManager.getAll
  by_cases he : s.isEmpty <;> simp [he, hs]

theorem favorites_getAll_safe_witness :
    FavoritesManager.getAll (fun _ => none) none = JsonValue.arr [] ∧
    ((fun (_ : JsStr) => (none : Option JsonValue)) ("not json".toList) = none ∧
     FavoritesManager.getAll (fun _ => none) (some ("not json".toList))
       = JsonValue.arr []) :=
  ⟨(favorites_getAll_safe (fun _ => none)).1,
   rfl, (favorites_getAll_safe (fun _ => none)).2 ("not json".toList) rfl⟩

/-! ## Worker proxy (`stockfishWorker.js`)

The thin proxy between `engine.js` and the Stockfish WASM worker: module
state `engineWorker`/`messageQueue`/`isReady`, the `self.onmessage`
handler for `{type: 'init' | 'command' | 'stop'}` messages, and the inner
worker's `onmessage` handler that forwards output and flushes the queue
on `uciok`. -/

structure ProxyState where
  engineWorker : Bool
  messageQueue : List JsStr
  isReady : Bool
deriving DecidableEq, Repr

/-- Observable effects of one proxy step: `engineWorker.postMessage(cmd)`
or `self.postMessage({type, data})`. -/
inductive ProxyOut
  | toEngine (cmd : JsStr)
  | toMain (typ : JsStr) (data : JsStr)
deriving DecidableEq, Repr

/-- `initStockfish()`: a no-op when the worker exists; otherwise creates
it and sends `uci` (worker creation is modelled as succeeding — the catch
branch posts an error and is not reached). -/
def initStockfish (st : ProxyState) : ProxyState × List ProxyOut :=
  if st.engineWorker then (st, [])
  else ({ st with engineWorker := true }, [ProxyOut.toEngine ("uci".toList)])

/-- The proxy's `self.onmessage` handler. -/
def proxyOnMessage (msg : WorkerMsg) (st : ProxyState) : ProxyState × List ProxyOut :=
  match msg with
  | WorkerMsg.init => initStockfish st
  | WorkerMsg.command cmd =>
    if st.isReady && st.engineWorker then (st, [ProxyOut.toEngine cmd])
    else ({ st with messageQueue := st.messageQueue ++ [cmd] }, [])
  | WorkerMsg.stop =>
    if st.engineWorker then (st, [ProxyOut.toEngine ("stop".toList)]) else (st, [])

/-- The inner engine worker's `onmessage` handler: forward every line to
the main thread; on `uciok`, become ready and flush the queue in order. -/
def proxyOnEngineLine (line : JsStr) (st : ProxyState) : ProxyState × List ProxyOut :=
  if line = ("uciok".toList) then
    ({ st with isReady := true, messageQueue := [] },
     ProxyOut.toMain ("output".toList) line :: st.messageQueue.map ProxyOut.toEngine)
  else (st, [ProxyOut.toMain ("output".toList) line])

/-- C10 (confirmed): a `stop` message is never buffered — it leaves the
pending command queue and the readiness flag unchanged and is forwarded
to the inner engine worker exactly when that worker exists; by contrast,
a `command` message received before readiness is appended to the queue
and forwards nothing, so an early `stop` bypasses (and can overtake) the
buffered commands. -/
theorem proxy_stop_not_buffered (st : ProxyState) :
    (proxyOnMessage WorkerMsg.stop st).1.messageQueue = st.messageQueue ∧
    (proxyOnMessage WorkerMsg.stop st).1.isReady = st.isReady ∧
    (proxyOnMessage WorkerMsg.stop st).2
      = (if st.engineWorker then [ProxyOut.toEngine ("stop".toList)] else []) ∧
    ∀ cmd : JsStr, st.isReady = false →
      proxyOnMessage (WorkerMsg.command cmd) st
        = ({ st with messageQueue := st.messageQueue ++ [cmd] }, []) := by
  refine ⟨?_, ?_, ?_, ?_⟩
  · show (if st.engineWorker then (st, [ProxyOut.toEngine ("stop".toList)])
      else (st, [])).1.messageQueue = st.messageQueue
    split <;> rfl
  · show (if st.engineWorker then (st, [ProxyOut.toEngine ("stop".toList)])
      else (st, [])).1.isReady = st.isReady
    split <;> rfl
  · show (if st.engineWorker then (st, [ProxyOut.toEngine ("stop".toList)])
      else (st, [])).2 = _
    split <;> rfl
  · intro cmd hr
    show (if st.isReady && st.engineWorker then (st, [ProxyOut.toEngine cmd])
      else ({ st with messageQueue := st.messageQueue ++ [cmd] }, [])) = _
    rw [hr]
    rfl

theorem proxy_stop_not_buffered_witness :
    (proxyOnMessage WorkerMsg.stop ⟨true, [("isready".toList)], false⟩).1.messageQueue
      = [("isready".toList)] ∧
    (proxyOnMessage WorkerMsg.stop ⟨true, [("isready".toList)], false⟩).1.isReady = false ∧
    (proxyOnMessage WorkerMsg.stop ⟨true, [("isready".toList)], false⟩).2
      = [ProxyOut.toEngine ("stop".toList)] ∧
    proxyOnMessage (WorkerMsg.command ("go depth 15".toList))
        ⟨true, [("isready".toList)], false⟩
      = (⟨true, [("isready".toList), ("go depth 15".toList)], false⟩, []) :=
  ⟨(proxy_stop_not_buffered ⟨true, [("isready".toList)], false⟩).1,
   (proxy_stop_not_buffered ⟨true, [("isready".toList)], false⟩).2.1,
   by
    rw [(proxy_stop_not_buffered ⟨true, [("isready".toList)], false⟩).2.2.1]
    decide,
   by
    rw [(proxy_stop_not_buffered ⟨true, [("isready".toList)], false⟩).2.2.2
      ("go depth 15".toList) rfl]
    decide⟩
